import Mathlib

/-!
Verification of the LRC↔SRT subtitle converters and the lyric cleanup pass
of the MySelfScript repository.

Modelling conventions:
* A Python string is a `List Char`; file contents are lists of lines
  (each a `List Char`), mirroring `content.split('\n')`.
* `re.match` anchors at the start of the string only (prefix matching);
  the parsers below reproduce that behaviour exactly, including the
  backtracking of `\d{1,3}` before a literal `:`.
* Functions that `raise` in Python return `Option` here (`none` = raise).
* File I/O (reading the source, creating directories, writing the output)
  is modelled as always succeeding; the claims under study are about the
  parsing/serialisation logic, not the filesystem.
-/

/-- Shorthand: the character list of a string literal. -/
def strL (s : String) : List Char := s.data

/-- Numeric value of a single decimal digit character. -/
def digitVal (c : Char) : Nat := c.toNat - 48

/-- The decimal digit character for a value in `[0, 9]`. -/
def digitChar (n : Nat) : Char := Char.ofNat (48 + n)

/-- Two-digit group value, as `int(g)` on a two-character capture. -/
def dv2 (a b : Char) : Nat := digitVal a * 10 + digitVal b

/-- Value of `int(g)` on an arbitrary all-digit capture group. -/
def digitsVal (ds : List Char) : Nat := ds.foldl (fun n c => n * 10 + digitVal c) 0

/-- Decimal digit expansion, most significant first (fuelled so that it is
structurally recursive and evaluates inside `decide`). -/
def natDigitsFuel : Nat → Nat → List Char
  | 0, _ => []
  | f + 1, n => if n < 10 then [digitChar n] else natDigitsFuel f (n / 10) ++ [digitChar (n % 10)]

/-- Decimal digit expansion of a natural number, as `str(n)`. -/
def natDigits (n : Nat) : List Char := natDigitsFuel (n + 1) n

/-- Python's `f"{n:0wd}"`: decimal rendering left-padded with zeros to
width `w` (wider values keep all their digits). -/
def pad (w n : Nat) : List Char :=
  List.replicate (w - (natDigits n).length) '0' ++ natDigits n

/-- Longest all-digit prefix of a string, together with the remainder. -/
def takeDigits : List Char → List Char × List Char
  | [] => ([], [])
  | c :: cs =>
    if c.isDigit then
      let p := takeDigits cs
      (c :: p.1, p.2)
    else ([], c :: cs)

/-- A successful match of the compact time-code regex
`(\d{1,3}):(\d{2})\.(\d{2})` (prefix match, as `re.match`). -/
structure CompactTime where
  /-- The full matched substring (capture of the whole time-code). -/
  chars : List Char
  /-- Value of `int` on the minutes group. -/
  totalMin : Nat
  /-- Value of `int` on the seconds group. -/
  sec : Nat
  /-- Value of `int` on the centiseconds group. -/
  cs : Nat
  /-- Unmatched remainder of the input (re.match ignores it). -/
  rest : List Char
  deriving DecidableEq

/-- Tail of the compact time-code match after the minute digits `ds`:
requires `:DD.DD` next.  `\d{1,3}` is greedy, but since a digit can never
equal the following literal `:`, backtracking cannot succeed, so the
greedy all-digit prefix is the only candidate. -/
def scanCompactAux (ds : List Char) : List Char → Option CompactTime
  | ':' :: a :: b :: '.' :: c :: d :: rest =>
    if 1 ≤ ds.length ∧ ds.length ≤ 3 ∧ a.isDigit = true ∧ b.isDigit = true
        ∧ c.isDigit = true ∧ d.isDigit = true then
      some ⟨ds ++ ':' :: a :: b :: '.' :: [c, d], digitsVal ds, dv2 a b, dv2 c d, rest⟩
    else none
  | _ => none

/-- Model of `re.match(r'(\d{1,3}):(\d{2})\.(\d{2})', s)`. -/
def scanCompact (s : List Char) : Option CompactTime :=
  scanCompactAux (takeDigits s).1 (takeDigits s).2

/-- The three numeric groups of a compact time-code match. -/
def parseCompactNums (s : List Char) : Option (Nat × Nat × Nat) :=
  (scanCompact s).map fun t => (t.totalMin, t.sec, t.cs)

/-- Model of `convert_lrc_time_to_srt` (LrcToSrt.py lines 8-26): raises on regex
failure, else renders `f"{m//60:02d}:{m%60:02d}:{s:02d},{cs*10:03d}"`. -/
def convert_lrc_time_to_srt (s : List Char) : Option (List Char) :=
  match scanCompact s with
  | none => none
  | some t =>
    some (pad 2 (t.totalMin / 60) ++ ':' :: pad 2 (t.totalMin % 60)
          ++ ':' :: pad 2 t.sec ++ ',' :: pad 3 (t.cs * 10))

/-- Model of `re.match(r'(\d{2}):(\d{2}):(\d{2})[,.](\d{3})', s)` (SrtToLrc_2.0.py
line 11): hours, minutes, seconds values, the three raw millisecond digit
characters, and the ignored remainder. -/
def parseSrtTime : List Char → Option (Nat × Nat × Nat × List Char × List Char)
  | h1 :: h2 :: ':' :: m1 :: m2 :: ':' :: s1 :: s2 :: sep :: d1 :: d2 :: d3 :: rest =>
    if h1.isDigit && h2.isDigit && m1.isDigit && m2.isDigit && s1.isDigit && s2.isDigit
        && (sep = ',' || sep = '.') && d1.isDigit && d2.isDigit && d3.isDigit then
      some (dv2 h1 h2, dv2 m1 m2, dv2 s1 s2, [d1, d2, d3], rest)
    else none
  | _ => none

/-- Model of `convert_srt_time_to_lrc` (SrtToLrc_2.0.py lines 9-19): raises on regex
failure, else `f"{h*60+m:02d}:{s:02d}.{ms_str[:2]}"` — the output fraction
is the string slice of the first two millisecond digit characters. -/
def convert_srt_time_to_lrc (s : List Char) : Option (List Char) :=
  match parseSrtTime s with
  | none => none
  | some (h, m, sec, msds, _) =>
    some (pad 2 (h * 60 + m) ++ ':' :: pad 2 sec ++ '.' :: msds.take 2)

/-- Python's `str.strip()`: drop leading and trailing whitespace. -/
def stripChars (l : List Char) : List Char :=
  ((l.dropWhile Char.isWhitespace).reverse.dropWhile Char.isWhitespace).reverse

/-- Model of `re.match(r'\[(\d{1,3}:\d{2}\.\d{2})\](.+)', line)` (LrcToSrt.py line
84): returns the captured time-code substring and the (non-empty) text
after the closing bracket. -/
def matchLrcLine (l : List Char) : Option (List Char × List Char) :=
  match l with
  | '[' :: rest =>
    match scanCompact rest with
    | some t =>
      match t.rest with
      | ']' :: text => if text.isEmpty then none else some (t.chars, text)
      | _ => none
    | none => none
  | _ => none

/-- One parsed LRC entry: the raw time-code capture, its SRT rendering,
and the stripped lyric text (LrcToSrt.py line 101). -/
structure LrcEntry where
  time : List Char
  srtTime : List Char
  text : List Char
  deriving DecidableEq

/-- What the LRC parsing loop (LrcToSrt.py lines 78-105) does with one
input line. -/
inductive LineResult where
  /-- Line empty after `strip()` — skipped, no message. -/
  | blank
  /-- No regex match and (does not start with `[` or has no `:`) —
  skipped silently (line 87-88). -/
  | silent
  /-- No regex match but starts with `[` and contains `:` — skipped with
  the printed warning of line 89. -/
  | warned
  /-- Regex matched but the text is empty after `strip()` — skipped
  silently (line 96-97). -/
  | emptyText
  /-- Time conversion raised — caught and reported (line 104-105);
  unreachable in fact, since the capture always re-parses. -/
  | failed
  /-- A successful entry, appended to `entries`. -/
  | entry (e : LrcEntry)
  deriving DecidableEq

/-- The body of the LRC parsing loop after `line = line.strip()`. -/
def classifyStripped (l : List Char) : LineResult :=
  if l.isEmpty then .blank
  else
    match matchLrcLine l with
    | none =>
      if ¬(l.head? = some '[') ∨ ¬(l.contains ':' = true) then .silent else .warned
    | some (t, x) =>
      if (stripChars x).isEmpty then .emptyText
      else
        match convert_lrc_time_to_srt t with
        | some st => .entry ⟨t, st, stripChars x⟩
        | none => .failed

/-- The body of the LRC parsing loop for one line (LrcToSrt.py 78-105). -/
def classifyLine (line : List Char) : LineResult :=
  classifyStripped (stripChars line)

/-- The `entries` list built by the LRC parsing loop. -/
def lrcEntries (lines : List (List Char)) : List LrcEntry :=
  lines.filterMap fun l =>
    match classifyLine l with
    | .entry e => some e
    | _ => none

/-- Number of invalid-format warnings printed by the LRC parsing loop. -/
def lrcWarnCount (lines : List (List Char)) : Nat :=
  lines.countP fun l =>
    match classifyLine l with
    | LineResult.warned => true
    | _ => false

/-- The `default_duration` parameter of `calculate_duration`, always left
at its default by callers. -/
def default_duration : Int := 3000

/-- Model of `calculate_duration` (LrcToSrt.py lines 28-50): milliseconds the
subtitle stays visible; `max(next - current, 500)` when both time-codes
parse, the 3000 ms default otherwise or for the last entry. -/
def calculate_duration (current : List Char) (next : Option (List Char)) : Int :=
  match next with
  | none => default_duration
  | some nxt =>
    match parseCompactNums current with
    | none => default_duration
    | some (cm, csec, ccs) =>
      match parseCompactNums nxt with
      | none => default_duration
      | some (nm, nsec, ncs) =>
        max (((nm * 60 + nsec) * 1000 + ncs * 10 : Nat) - ((cm * 60 + csec) * 1000 + ccs * 10 : Nat) : Int) 500

/-- Model of `ms_to_srt_time` (LrcToSrt.py lines 52-59). -/
def ms_to_srt_time (milliseconds : Nat) : List Char :=
  pad 2 (milliseconds / 3600000) ++ ':' :: pad 2 (milliseconds % 3600000 / 60000)
    ++ ':' :: pad 2 (milliseconds % 60000 / 1000) ++ ',' :: pad 3 (milliseconds % 1000)

/-- Start of an entry in milliseconds (LrcToSrt.py lines 119-122). -/
def startMs (t : List Char) : Option Nat :=
  (parseCompactNums t).map fun p => (p.1 * 60 + p.2.1) * 1000 + p.2.2 * 10

/-- End of an entry in milliseconds: start plus synthesized duration
(LrcToSrt.py line 123).  The duration is ≥ 500 in every branch, so the
Python integer sum equals this `Nat` sum. -/
def entryEndMs (e : LrcEntry) (next : Option (List Char)) : Option Nat :=
  (startMs e.time).map fun s => s + (calculate_duration e.time next).toNat

/-- The rendered SRT end time-code, with the fallback of line 126 when
the start fails to re-parse. -/
def entryEndTime (e : LrcEntry) (next : Option (List Char)) : List Char :=
  match entryEndMs e next with
  | some n => ms_to_srt_time n
  | none => e.srtTime

/-- Model of `lrc_to_srt` (LrcToSrt.py lines 61-151) after the file has been read
and split into lines: `none` when no valid entry was found (failure,
lines 107-109), otherwise the SRT output lines. -/
def lrc_to_srt (lines : List (List Char)) : Option (List (List Char)) :=
  let entries := lrcEntries lines
  if entries.isEmpty then none
  else
    some (List.flatten (entries.enum.map fun p =>
      [natDigits (p.1 + 1),
       p.2.srtTime ++ strL " --> " ++ entryEndTime p.2 ((entries.get? (p.1 + 1)).map LrcEntry.time),
       p.2.text,
       []]))

/-- Characters before the first occurrence of `sep`, i.e.
`s.split(sep)[0]` — the whole string when `sep` does not occur. -/
def takeBefore (sep : List Char) : List Char → List Char
  | [] => []
  | c :: cs => if sep.isPrefixOf (c :: cs) then [] else c :: takeBefore sep cs

/-- Python's `' '.join(parts)`. -/
def joinSpaces : List (List Char) → List Char
  | [] => []
  | [x] => x
  | x :: y :: ys => x ++ ' ' :: joinSpaces (y :: ys)

/-- One SRT block (SrtToLrc_2.0.py lines 37-58), given as its list of
lines (`entry.strip().split('\n')`): `none` when the block is skipped
(fewer than 3 lines, or the start time-code raises), otherwise the
LRC line `[time]text` it contributes. -/
def processBlock (block : List (List Char)) : Option (List Char) :=
  if block.length < 3 then none
  else
    match block.get? 1 with
    | none => none
    | some timeLine =>
      match convert_srt_time_to_lrc (stripChars (takeBefore (strL " --> ") timeLine)) with
      | none => none
      | some lrcTime =>
        some ('[' :: lrcTime ++ ']' :: joinSpaces ((block.drop 2).map stripChars))

/-- Model of `srt_to_lrc` (SrtToLrc_2.0.py lines 21-75) after the file has been
read and split into blank-line-separated blocks: the returned success
flag and the LRC output lines.  The function has no empty-result check:
once the file is readable, it always writes and returns `True`, so the
flag is constantly `true`. -/
def srt_to_lrc (blocks : List (List (List Char))) : Bool × List (List Char) :=
  (true, blocks.filterMap processBlock)

/-- Model of `recursive_process_directory` (both scripts): given the per-file
conversion outcomes of the discovered files, returns `False` when no file
was found, else whether every file converted. -/
def recursive_process_directory (fileResults : List Bool) : Bool :=
  if fileResults.length = 0 then false else fileResults.all fun b => b

/-- What the command-line input path resolves to. -/
inductive PathKind where
  | file
  | dir
  | invalid
  deriving DecidableEq

/-- The `__main__` dispatch shared by both converter scripts (LrcToSrt.py
lines 204-272, SrtToLrc_2.0.py lines 128-196), with the filesystem
outcomes abstracted as parameters: `nargs = len(sys.argv)`, `fileResults`
the per-file outcomes seen by a directory walk, `singleOk` the outcome of
a single-file conversion.  With no user argument the scripts call
`recursive_process_directory`, discard its result and `sys.exit(0)`. -/
def mainExitCode (nargs : Nat) (pk : PathKind) (fileResults : List Bool) (singleOk : Bool) : Nat :=
  if nargs = 1 then 0
  else if ¬(nargs = 2 ∨ nargs = 3) then 1
  else
    match pk with
    | .file => if singleOk then 0 else 1
    | .dir => if recursive_process_directory fileResults then 0 else 1
    | .invalid => 1

/-- The active replacement table of lrc_processor.py (lines 31-40), in
dictionary insertion order. -/
def REPLACEMENTS : List (List Char × List Char) :=
  [(strL "消杀", strL "消砂"), (strL "桂山", strL "癸山"), (strL "沙", strL "砂"),
   (strL "不藏", strL "不葬"), (strL "寻农", strL "寻龙"), (strL "外印", strL "外应"),
   (strL "日科", strL "日课")]

/-- Python's `sub in s` substring test. -/
def containsSub (sub : List Char) : List Char → Bool
  | [] => sub.isEmpty
  | c :: cs => sub.isPrefixOf (c :: cs) || containsSub sub cs

/-- Python's `s.replace(old, new)` for non-empty `old`, fuelled by the
length of `s` so that it is structurally recursive (the fuel never runs
out because each step consumes at least one character). -/
def replaceAllFuel (old new : List Char) : Nat → List Char → List Char
  | _, [] => []
  | 0, s => s
  | f + 1, c :: cs =>
    if old.isEmpty then c :: cs
    else if old.isPrefixOf (c :: cs) then new ++ replaceAllFuel old new f (cs.drop (old.length - 1))
    else c :: replaceAllFuel old new f cs

/-- Python's `s.replace(old, new)`. -/
def replaceAll (old new s : List Char) : List Char := replaceAllFuel old new s.length s

/-- The replacement loop of lrc_processor.py lines 167-175 over the
lyric text: the rewritten text, and whether any key occurred (which is
exactly when the loop sets `modified = True`).  The occurrence counters
only feed the final statistics log and are not modelled. -/
def applyReplacements (lyrics : List Char) : List Char × Bool :=
  REPLACEMENTS.foldl
    (fun acc p => if containsSub p.1 acc.1 then (replaceAll p.1 p.2 acc.1, true) else acc)
    (lyrics, false)

/-- Close of the timestamp regex of lrc_processor.py line 160 when the
optional fraction group is skipped: the next character must be `]`. -/
def matchTsClose (a b c d : Char) : List Char → Option (List Char × List Char)
  | ']' :: r => some (['[', a, b, ':', c, d, ']'], r)
  | _ => none

/-- Model of `re.match(r'^(\[\d{2}:\d{2}(.\d{2})?\])(.*)$', line)` (lrc_processor.py
line 160): the bracketed timestamp capture and the trailing lyrics.  The
greedy optional group `(.\d{2})?` (any character, two digits) is tried
first and dropped when the following `]` cannot then be matched. -/
def matchTimestampLine (l : List Char) : Option (List Char × List Char) :=
  match l with
  | '[' :: a :: b :: ':' :: c :: d :: rest =>
    if a.isDigit && b.isDigit && c.isDigit && d.isDigit then
      match rest with
      | x :: e :: f :: ']' :: r =>
        if e.isDigit && f.isDigit then some (['[', a, b, ':', c, d, x, e, f, ']'], r)
        else matchTsClose a b c d rest
      | _ => matchTsClose a b c d rest
    else none
  | _ => none

/-- Outcome of the cleanup loop of lrc_processor.py (lines 152-188) for
one input line. -/
inductive CleanResult where
  /-- Blank before processing — dropped, `modified` NOT set (line 156-157). -/
  | dropBlank
  /-- Timestamped and the text is empty after replacement — dropped and
  `modified` set (lines 178-181). -/
  | dropEmptied
  /-- Kept, as the (re-assembled, stripped) line `l`; `m` is whether a
  replacement fired on it. -/
  | keep (l : List Char) (m : Bool)
  deriving DecidableEq

/-- The cleanup loop body for one line. -/
def cleanLine (line : List Char) : CleanResult :=
  let orig := stripChars line
  if orig.isEmpty then .dropBlank
  else
    match matchTimestampLine orig with
    | some (ts, rest) =>
      let p := applyReplacements (stripChars rest)
      if p.1.isEmpty then .dropEmptied else .keep (ts ++ p.1) p.2
    | none => .keep orig false

/-- Model of `process_lrc_file` (lrc_processor.py lines 144-195) on the list of
input lines: the returned `modified` flag and the lines of the resulting
file — the processed lines when the file is rewritten, the original
(unchanged on disk) lines when it is not. -/
def process_lrc_file (lines : List (List Char)) : Bool × List (List Char) :=
  let step := lines.foldr
    (fun line acc =>
      match cleanLine line with
      | .dropBlank => acc
      | .dropEmptied => (true, acc.2)
      | .keep l m => (acc.1 || m, l :: acc.2))
    ((false : Bool), ([] : List (List Char)))
  if step.1 then (true, step.2) else (false, lines)

/-- Modelled from the spec: the `:SS.CC` tail of the compact grammar —
exactly `:`, two digits, `.`, two digits, end of string. -/
def compactTail (t : List Char) : Bool :=
  match t with
  | sep1 :: a :: b :: sep2 :: c :: d :: rest =>
    sep1 = ':' && a.isDigit && b.isDigit && sep2 = '.' && c.isDigit && d.isDigit && rest.isEmpty
  | _ => false

/-- Modelled from the spec: the three-digit-minutes case of the compact
grammar, after the first two minute digits `m1 m2`. -/
def isCompactGrammar3 (m1 m2 : Char) : List Char → Bool
  | m3 :: t3 => m1.isDigit && m2.isDigit && m3.isDigit && compactTail t3
  | [] => false

/-- Modelled from the spec: the two- and three-digit-minutes cases of the
compact grammar, after the first minute digit `m1`. -/
def isCompactGrammar2 (m1 : Char) : List Char → Bool
  | m2 :: t2 => (m1.isDigit && m2.isDigit && compactTail t2) || isCompactGrammar3 m1 m2 t2
  | [] => false

/-- Modelled from the spec: the compact time-code grammar `M{1,3}:SS.CC`
of §6, as a FULL match — "minutes any 1-3 digit value, seconds and
centiseconds exactly 2 digits, separators `:` and `.` literal".  Used to
compare the transcoders' acceptance (prefix matching) against the spec's
notion of a syntactically valid time-code. -/
def isCompactGrammar (s : List Char) : Bool :=
  match s with
  | m1 :: t1 => (m1.isDigit && compactTail t1) || isCompactGrammar2 m1 t1
  | [] => false

/-- Modelled from the spec: the expanded time-code grammar `HH:MM:SS,mmm`
of §6, as a FULL match — "all fields fixed-width (2,2,2,3 digits)",
accepting `.` in place of `,` on input. -/
def isExpandedGrammar (s : List Char) : Bool :=
  match s with
  | h1 :: h2 :: c1 :: m1 :: m2 :: c2 :: s1 :: s2 :: sep :: d1 :: d2 :: d3 :: rest =>
    h1.isDigit && h2.isDigit && c1 = ':' && m1.isDigit && m2.isDigit && c2 = ':'
      && s1.isDigit && s2.isDigit && (sep = ',' || sep = '.')
      && d1.isDigit && d2.isDigit && d3.isDigit && rest.isEmpty
  | _ => false

theorem takeDigits_digits : ∀ s : List Char, ∀ c ∈ (takeDigits s).1, c.isDigit = true := by
  intro s
  induction s with
  | nil => intro c hc; simp [takeDigits] at hc
  | cons a as ih =>
    intro c hc
    by_cases ha : a.isDigit
    · simp [takeDigits, ha] at hc
      rcases hc with hc | hc
      · exact hc ▸ ha
      · exact ih c hc
    · simp [takeDigits, ha] at hc

theorem takeDigits_append (ds r : List Char)
    (hds : ∀ c ∈ ds, c.isDigit = true)
    (hr : ∀ c, r.head? = some c → c.isDigit = false) :
    takeDigits (ds ++ r) = (ds, r) := by
  induction ds with
  | nil =>
    cases r with
    | nil => rfl
    | cons c cs =>
      have := hr c rfl
      simp [takeDigits, this]
  | cons a as ih =>
    have ha : a.isDigit = true := hds a (List.mem_cons_self a as)
    have := ih fun c hc => hds c (List.mem_cons_of_mem a hc)
    simp [takeDigits, ha, this]

theorem takeDigits_decomp : ∀ s : List Char, (takeDigits s).1 ++ (takeDigits s).2 = s := by
  intro s
  induction s with
  | nil => rfl
  | cons a as ih =>
    by_cases ha : a.isDigit
    · simp [takeDigits, ha, ih]
    · simp [takeDigits, ha]

theorem digit_toNat_bounds (c : Char) (h : c.isDigit = true) :
    48 ≤ c.toNat ∧ c.toNat ≤ 57 := by
  simp only [Char.isDigit, Bool.and_eq_true, decide_eq_true_eq, ge_iff_le] at h
  obtain ⟨h1, h2⟩ := h
  rw [UInt32.le_def, BitVec.le_def] at h1 h2
  exact ⟨h1, h2⟩

theorem digitChar_digitVal (c : Char) (h : c.isDigit = true) : digitChar (digitVal c) = c := by
  obtain ⟨h1, _⟩ := digit_toNat_bounds c h
  unfold digitChar digitVal
  rw [show 48 + (c.toNat - 48) = c.toNat by omega, Char.ofNat_toNat]

theorem digitVal_lt_10 (c : Char) (h : c.isDigit = true) : digitVal c < 10 := by
  obtain ⟨h1, h2⟩ := digit_toNat_bounds c h
  unfold digitVal
  omega

theorem digitVal_digitChar : ∀ n < 10, digitVal (digitChar n) = n := by decide

theorem digitChar_isDigit : ∀ n < 10, (digitChar n).isDigit = true := by decide

theorem pad2_decomp : ∀ x < 10, ∀ y < 10, pad 2 (10 * x + y) = [digitChar x, digitChar y] := by
  decide

set_option maxRecDepth 4096 in
theorem pad3_decomp :
    ∀ x < 10, ∀ y < 10, ∀ z < 10,
      pad 3 (100 * x + 10 * y + z) = [digitChar x, digitChar y, digitChar z] := by
  decide

set_option maxRecDepth 4096 in
theorem pad2_eq_pad3 : ∀ n < 1000, 100 ≤ n → pad 2 n = pad 3 n := by decide

theorem scanCompact_via (s ds r : List Char) (h : takeDigits s = (ds, r)) :
    scanCompact s = scanCompactAux ds r := by
  unfold scanCompact
  rw [h]

theorem scanCompact_chars (s : List Char) (t : CompactTime) (h : scanCompact s = some t) :
    scanCompact t.chars = some ⟨t.chars, t.totalMin, t.sec, t.cs, []⟩ := by
  have hds := takeDigits_digits s
  unfold scanCompact at h
  unfold scanCompactAux at h
  split at h
  next ds' a b c d rest heq =>
    split at h
    next hcond =>
      obtain ⟨hlen1, hlen3, hda, hdb, hdc, hdd⟩ := hcond
      cases h
      have htd : takeDigits ((takeDigits s).1 ++ ':' :: a :: b :: '.' :: [c, d])
          = ((takeDigits s).1, ':' :: a :: b :: '.' :: [c, d]) := by
        apply takeDigits_append
        · exact hds
        · intro x hx
          simp at hx
          rw [← hx]
          decide
      rw [scanCompact_via _ _ _ htd]
      unfold scanCompactAux
      simp only [heq] at hlen1 hlen3 ⊢
      rw [if_pos ⟨hlen1, hlen3, hda, hdb, hdc, hdd⟩]
    next => exact absurd h (by simp)
  next => exact absurd h (by simp)

theorem classifyLine_entry (line : List Char) (e : LrcEntry)
    (h : classifyLine line = .entry e) :
    ∃ x, matchLrcLine (stripChars line) = some (e.time, x) := by
  unfold classifyLine classifyStripped at h
  split at h
  · exact absurd h (by simp)
  · split at h
    next => exact absurd h (by split at h <;> simp at h)
    next t x heq =>
      split at h
      next => exact absurd h (by simp)
      next =>
        split at h
        next st hconv =>
          cases h
          exact ⟨x, heq⟩
        next => exact absurd h (by simp)

theorem matchLrcLine_scan (l t x : List Char) (h : matchLrcLine l = some (t, x)) :
    ∃ m s c, scanCompact t = some ⟨t, m, s, c, []⟩ := by
  unfold matchLrcLine at h
  split at h
  next rest =>
    split at h
    next u hu =>
      split at h
      next text =>
        split at h
        next => exact absurd h (by simp)
        next =>
          cases h
          exact ⟨u.totalMin, u.sec, u.cs, scanCompact_chars rest u hu⟩
      next => exact absurd h (by simp)
    next => exact absurd h (by simp)
  next => exact absurd h (by simp)

theorem lrcEntry_scan (lines : List (List Char)) (e : LrcEntry) (h : e ∈ lrcEntries lines) :
    ∃ m s c, scanCompact e.time = some ⟨e.time, m, s, c, []⟩ := by
  rw [lrcEntries, List.mem_filterMap] at h
  obtain ⟨l, _, hl⟩ := h
  have he : classifyLine l = .entry e := by
    revert hl
    split <;> intro hl <;> simp_all
  obtain ⟨x, hx⟩ := classifyLine_entry l e he
  exact matchLrcLine_scan _ _ _ hx

theorem lrcEntry_startMs (lines : List (List Char)) (e : LrcEntry) (h : e ∈ lrcEntries lines) :
    ∃ v, startMs e.time = some v := by
  obtain ⟨m, s, c, hs⟩ := lrcEntry_scan lines e h
  exact ⟨(m * 60 + s) * 1000 + c * 10, by simp [startMs, parseCompactNums, hs]⟩

theorem calculate_duration_ge (c : List Char) (n : Option (List Char)) :
    500 ≤ calculate_duration c n := by
  unfold calculate_duration default_duration
  split
  · decide
  · split
    · decide
    · split
      · decide
      · exact le_max_right _ _

theorem digitsVal_lt_1000 (mds : List Char) (hm : ∀ x ∈ mds, x.isDigit = true)
    (hlen : mds.length ≤ 3) : digitsVal mds < 1000 := by
  match mds, hlen with
  | [], _ => decide
  | [x], _ =>
    have := digitVal_lt_10 x (hm x (by simp))
    simp [digitsVal]
    omega
  | [x, y], _ =>
    have := digitVal_lt_10 x (hm x (by simp))
    have := digitVal_lt_10 y (hm y (by simp))
    simp [digitsVal]
    omega
  | [x, y, z], _ =>
    have := digitVal_lt_10 x (hm x (by simp))
    have := digitVal_lt_10 y (hm y (by simp))
    have := digitVal_lt_10 z (hm z (by simp))
    simp [digitsVal]
    omega

theorem dv2_lt_100 (a b : Char) (ha : a.isDigit = true) (hb : b.isDigit = true) :
    dv2 a b < 100 := by
  have := digitVal_lt_10 a ha
  have := digitVal_lt_10 b hb
  unfold dv2
  omega

/-- Python's 2-wide zero-padded rendering of `n < 100` is the two digit
characters of `n`. -/
theorem pad2_digits (n : Nat) (h : n < 100) :
    pad 2 n = [digitChar (n / 10), digitChar (n % 10)] := by
  have := pad2_decomp (n / 10) (by omega) (n % 10) (by omega)
  rwa [Nat.div_add_mod] at this

/-- Python's 3-wide zero-padded rendering of `n < 1000` is the three digit
characters of `n`. -/
theorem pad3_digits (n : Nat) (h : n < 1000) :
    pad 3 n = [digitChar (n / 100), digitChar (n / 10 % 10), digitChar (n % 10)] := by
  have := pad3_decomp (n / 100) (by omega) (n / 10 % 10) (by omega) (n % 10) (by omega)
  have hsum : 100 * (n / 100) + 10 * (n / 10 % 10) + n % 10 = n := by omega
  rwa [hsum] at this

theorem convert_srt_eval (h1 h2 m1 m2 s1 s2 d1 d2 d3 sep : Char)
    (hh1 : h1.isDigit = true) (hh2 : h2.isDigit = true)
    (hm1 : m1.isDigit = true) (hm2 : m2.isDigit = true)
    (hs1 : s1.isDigit = true) (hs2 : s2.isDigit = true)
    (hd1 : d1.isDigit = true) (hd2 : d2.isDigit = true) (hd3 : d3.isDigit = true)
    (hsep : sep = ',' ∨ sep = '.') :
    convert_srt_time_to_lrc [h1, h2, ':', m1, m2, ':', s1, s2, sep, d1, d2, d3]
      = some (pad 2 (dv2 h1 h2 * 60 + dv2 m1 m2) ++ ':' :: pad 2 (dv2 s1 s2) ++ '.' :: [d1, d2]) := by
  unfold convert_srt_time_to_lrc parseSrtTime
  rcases hsep with rfl | rfl <;>
    simp [hh1, hh2, hm1, hm2, hs1, hs2, hd1, hd2, hd3, List.take]

/-- C1: for every syntactically valid expanded time-code
`HH:MM:SS,mmm` (with `,` or `.` before the fraction), the
expanded-to-compact conversion outputs exactly the first two millisecond
digit characters as the centiseconds field — a string slice, so a
truncation that never rounds (the third digit `d3` does not occur in the
output). -/
theorem srt_time_truncation (h1 h2 m1 m2 s1 s2 d1 d2 d3 sep : Char)
    (hd : (h1.isDigit && h2.isDigit && m1.isDigit && m2.isDigit && s1.isDigit && s2.isDigit
           && d1.isDigit && d2.isDigit && d3.isDigit) = true)
    (hsep : sep = ',' ∨ sep = '.') :
    convert_srt_time_to_lrc [h1, h2, ':', m1, m2, ':', s1, s2, sep, d1, d2, d3]
      = some (pad 2 (dv2 h1 h2 * 60 + dv2 m1 m2) ++ ':' :: pad 2 (dv2 s1 s2) ++ '.' :: [d1, d2]) := by
  simp only [Bool.and_eq_true] at hd
  obtain ⟨⟨⟨⟨⟨⟨⟨⟨hh1, hh2⟩, hm1⟩, hm2⟩, hs1⟩, hs2⟩, hd1⟩, hd2⟩, hd3⟩ := hd
  exact convert_srt_eval h1 h2 m1 m2 s1 s2 d1 d2 d3 sep hh1 hh2 hm1 hm2 hs1 hs2 hd1 hd2 hd3 hsep

/-- Witness for C1 at the two inputs of the claim: `019` ms becomes `01`
cs and `995` ms becomes `99` cs, truncated, not rounded. -/
theorem srt_time_truncation_witness :
    convert_srt_time_to_lrc (strL "00:00:00,019") = some (strL "00:00.01")
    ∧ convert_srt_time_to_lrc (strL "00:00:00,995") = some (strL "00:00.99") :=
  ⟨(srt_time_truncation '0' '0' '0' '0' '0' '0' '0' '1' '9' ',' (by decide) (Or.inl rfl)).trans
      (by decide),
   (srt_time_truncation '0' '0' '0' '0' '0' '0' '9' '9' '5' ',' (by decide) (Or.inl rfl)).trans
      (by decide)⟩

theorem convert_lrc_eval (mds : List Char) (a b c d : Char)
    (hm : ∀ x ∈ mds, x.isDigit = true)
    (h1 : 1 ≤ mds.length) (h3 : mds.length ≤ 3)
    (ha : a.isDigit = true) (hb : b.isDigit = true) (hc : c.isDigit = true)
    (hd : d.isDigit = true) :
    convert_lrc_time_to_srt (mds ++ ':' :: a :: b :: '.' :: [c, d])
      = some (pad 2 (digitsVal mds / 60) ++ ':' :: pad 2 (digitsVal mds % 60)
              ++ ':' :: pad 2 (dv2 a b) ++ ',' :: pad 3 (dv2 c d * 10)) := by
  have htd : takeDigits (mds ++ ':' :: a :: b :: '.' :: [c, d])
      = (mds, ':' :: a :: b :: '.' :: [c, d]) :=
    takeDigits_append _ _ hm (by intro x hx; simp at hx; rw [← hx]; decide)
  unfold convert_lrc_time_to_srt
  rw [scanCompact_via _ _ _ htd]
  simp only [scanCompactAux]
  rw [if_pos ⟨h1, h3, ha, hb, hc, hd⟩]

/-- C2: for every syntactically valid compact time-code `M{1,3}:SS.CC`,
the compact-to-expanded conversion renders hours `= minutes_total / 60`,
minutes `= minutes_total % 60`, the seconds digits unchanged, and
milliseconds `= centiseconds * 10`, as zero-padded 2,2,2,3-digit fields
with `:`/`:`/`,` separators (the second conjunct spells the output as an
explicit 12-character string, confirming the exact field widths). -/
theorem lrc_time_expansion (mds : List Char) (a b c d : Char)
    (hm : ∀ x ∈ mds, x.isDigit = true)
    (hlen : 1 ≤ mds.length ∧ mds.length ≤ 3)
    (hd : (a.isDigit && b.isDigit && c.isDigit && d.isDigit) = true) :
    convert_lrc_time_to_srt (mds ++ ':' :: a :: b :: '.' :: [c, d])
      = some (pad 2 (digitsVal mds / 60) ++ ':' :: pad 2 (digitsVal mds % 60)
              ++ ':' :: pad 2 (dv2 a b) ++ ',' :: pad 3 (dv2 c d * 10))
    ∧ convert_lrc_time_to_srt (mds ++ ':' :: a :: b :: '.' :: [c, d])
      = some [digitChar (digitsVal mds / 60 / 10), digitChar (digitsVal mds / 60 % 10), ':',
              digitChar (digitsVal mds % 60 / 10), digitChar (digitsVal mds % 60 % 10), ':',
              digitChar (dv2 a b / 10), digitChar (dv2 a b % 10), ',',
              digitChar (dv2 c d * 10 / 100), digitChar (dv2 c d * 10 / 10 % 10),
              digitChar (dv2 c d * 10 % 10)] := by
  simp only [Bool.and_eq_true] at hd
  obtain ⟨⟨⟨ha, hb⟩, hc⟩, hd'⟩ := hd
  have hbase := convert_lrc_eval mds a b c d hm hlen.1 hlen.2 ha hb hc hd'
  refine ⟨hbase, hbase.trans ?_⟩
  have hv := digitsVal_lt_1000 mds hm hlen.2
  rw [pad2_digits (digitsVal mds / 60) (by omega),
      pad2_digits (digitsVal mds % 60) (by omega),
      pad2_digits (dv2 a b) (dv2_lt_100 a b ha hb),
      pad3_digits (dv2 c d * 10) (by have := dv2_lt_100 c d hc hd'; omega)]
  simp

/-- Witness for C2 at `"03:45.67"`: minutes_total 3 becomes hours 00,
minutes 03; `67` cs becomes `670` ms. -/
theorem lrc_time_expansion_witness :
    convert_lrc_time_to_srt (strL "03:45.67") = some (strL "00:03:45,670") :=
  ((lrc_time_expansion ['0', '3'] '4' '5' '6' '7' (by decide) (by decide) (by decide)).1).trans
    (by decide)

/-- C3: in LRC-to-SRT conversion, every parsed entry's synthesized end
time is its start plus `max(next start - this start, 500)` milliseconds
when a next entry exists, and start plus the 3000 ms default for the last
entry — `entryEndMs` applied to the next entry's time is exactly the end
time the pipeline renders for entry `i` (see `lrc_to_srt` and
`entryEndTime`). -/
theorem lrc_entry_end_time (lines : List (List Char)) (i : Nat) (e : LrcEntry)
    (h : (lrcEntries lines).get? i = some e) :
    (∀ e', (lrcEntries lines).get? (i + 1) = some e' →
      ∃ s s', startMs e.time = some s ∧ startMs e'.time = some s' ∧
        entryEndMs e (((lrcEntries lines).get? (i + 1)).map LrcEntry.time)
          = some (s + (max ((s' : Int) - (s : Int)) 500).toNat))
    ∧ ((lrcEntries lines).get? (i + 1) = none →
      ∃ s, startMs e.time = some s ∧
        entryEndMs e (((lrcEntries lines).get? (i + 1)).map LrcEntry.time) = some (s + 3000)) := by
  obtain ⟨m, s, c, hscan⟩ := lrcEntry_scan lines e (List.get?_mem h)
  have hp : parseCompactNums e.time = some (m, s, c) := by
    simp [parseCompactNums, hscan]
  have hstart : startMs e.time = some ((m * 60 + s) * 1000 + c * 10) := by
    simp [startMs, hp]
  constructor
  · intro e' he'
    obtain ⟨m', s', c', hscan'⟩ := lrcEntry_scan lines e' (List.get?_mem he')
    have hp' : parseCompactNums e'.time = some (m', s', c') := by
      simp [parseCompactNums, hscan']
    refine ⟨(m * 60 + s) * 1000 + c * 10, (m' * 60 + s') * 1000 + c' * 10,
      hstart, by simp [startMs, hp'], ?_⟩
    rw [he']
    simp only [Option.map_some', entryEndMs, calculate_duration, hstart, hp, hp']
  · intro hnone
    rw [hnone]
    refine ⟨(m * 60 + s) * 1000 + c * 10, hstart, ?_⟩
    unfold entryEndMs calculate_duration default_duration
    rw [hstart]
    rfl

/-- Witness for C3: the spec's example — entries at `00:00.00` and
`00:00.30` (300 ms apart) give the first entry an end exactly 500 ms
after its start. -/
theorem lrc_entry_end_time_witness :
    (∃ s s', startMs (strL "00:00.00") = some s ∧ startMs (strL "00:00.30") = some s' ∧
      entryEndMs ⟨strL "00:00.00", strL "00:00:00,000", strL "a"⟩
        (((lrcEntries [strL "[00:00.00]a", strL "[00:00.30]b"]).get? 1).map LrcEntry.time)
        = some (s + (max ((s' : Int) - (s : Int)) 500).toNat))
    ∧ entryEndMs ⟨strL "00:00.00", strL "00:00:00,000", strL "a"⟩ (some (strL "00:00.30"))
        = some 500 :=
  ⟨(lrc_entry_end_time [strL "[00:00.00]a", strL "[00:00.30]b"] 0
      ⟨strL "00:00.00", strL "00:00:00,000", strL "a"⟩ (by decide)).1
      ⟨strL "00:00.30", strL "00:00:00,300", strL "b"⟩ (by decide),
   by decide⟩

/-- C10: every SRT entry emitted by LRC-to-SRT conversion ends at least
500 ms after it starts, even when the following entry starts earlier than
the current one (the `max(..., 500)` floor applies to a negative
difference as well, and every other branch yields the 3000 ms default). -/
theorem lrc_entry_min_duration (lines : List (List Char)) (i : Nat) (e : LrcEntry)
    (h : (lrcEntries lines).get? i = some e) :
    ∃ s endv, startMs e.time = some s ∧
      entryEndMs e (((lrcEntries lines).get? (i + 1)).map LrcEntry.time) = some endv ∧
      s + 500 ≤ endv := by
  obtain ⟨m, s, c, hscan⟩ := lrcEntry_scan lines e (List.get?_mem h)
  have hstart : startMs e.time = some ((m * 60 + s) * 1000 + c * 10) := by
    simp [startMs, parseCompactNums, hscan]
  set nxt := ((lrcEntries lines).get? (i + 1)).map LrcEntry.time
  refine ⟨(m * 60 + s) * 1000 + c * 10,
    (m * 60 + s) * 1000 + c * 10 + (calculate_duration e.time nxt).toNat,
    hstart, by simp [entryEndMs, hstart], ?_⟩
  have hge := calculate_duration_ge e.time nxt
  have : 500 ≤ (calculate_duration e.time nxt).toNat := by
    have := Int.toNat_le_toNat hge
    simpa using this
  omega

/-- Witness for C10 at an out-of-chronological-order file: the second
entry starts 10 s before the first, yet the first entry still ends 500 ms
after its start (10500 ms), not at a negative or zero duration. -/
theorem lrc_entry_min_duration_witness :
    (∃ s endv, startMs (strL "00:10.00") = some s ∧
      entryEndMs ⟨strL "00:10.00", strL "00:00:10,000", strL "a"⟩
        (((lrcEntries [strL "[00:10.00]a", strL "[00:00.00]b"]).get? 1).map LrcEntry.time)
        = some endv ∧ s + 500 ≤ endv)
    ∧ entryEndMs ⟨strL "00:10.00", strL "00:00:10,000", strL "a"⟩ (some (strL "00:00.00"))
        = some 10500 :=
  ⟨lrc_entry_min_duration [strL "[00:10.00]a", strL "[00:00.00]b"] 0
      ⟨strL "00:10.00", strL "00:00:10,000", strL "a"⟩ (by decide),
   by decide⟩

/-- C4 counterexample: the claim assigns the branches the wrong way
round.  The line `"not a timestamp"` (no leading `[`) is skipped silently
— the example file yields one entry and succeeds but logs ZERO warnings —
while a metadata-style line `[ti:Song]` (starts with `[`, contains `:`)
is the one that gets the warning. -/
theorem lrc_warning_branch_cex :
    classifyLine (strL "not a timestamp") = LineResult.silent
    ∧ classifyLine (strL "[ti:Song]") = LineResult.warned
    ∧ (lrcEntries [strL "[00:01.00]hello", strL "not a timestamp"]).length = 1
    ∧ (lrc_to_srt [strL "[00:01.00]hello", strL "not a timestamp"]).isSome = true
    ∧ lrcWarnCount [strL "[00:01.00]hello", strL "not a timestamp"] = 0 := by
  decide

/-- C4 as amended: for every non-blank input line not matching the
`[timestamp]text` form, the parser logs a warning exactly when the line
starts with `[` AND contains `:` (metadata-shaped lines), and skips every
other non-matching line silently; the example file with one valid entry
and the line `"not a timestamp"` yields exactly one entry, overall
success, and no warning. -/
theorem lrc_warning_branches :
    (∀ line : List Char, (stripChars line).isEmpty = false →
      matchLrcLine (stripChars line) = none →
      classifyLine line =
        if (stripChars line).head? = some '[' ∧ (stripChars line).contains ':' = true
        then LineResult.warned else LineResult.silent)
    ∧ (lrcEntries [strL "[00:01.00]hello", strL "not a timestamp"]).length = 1
    ∧ (lrc_to_srt [strL "[00:01.00]hello", strL "not a timestamp"]).isSome = true
    ∧ lrcWarnCount [strL "[00:01.00]hello", strL "not a timestamp"] = 0 := by
  refine ⟨?_, by decide, by decide, by decide⟩
  intro line h1 h2
  unfold classifyLine classifyStripped
  simp only [h1, h2, Bool.false_eq_true, if_false]
  by_cases hA : (stripChars line).head? = some '['
  · by_cases hB : (stripChars line).contains ':' = true
    · simp [hA, hB]
    · simp [hA, hB]
  · simp [hA]

/-- Witness for C4 (amended): a metadata-shaped header line is the one
that draws the warning. -/
theorem lrc_warning_branches_witness :
    classifyLine (strL "[ti:Song]") = LineResult.warned :=
  (lrc_warning_branches.1 (strL "[ti:Song]") (by decide) (by decide)).trans (by decide)

/-- C5 counterexample: an SRT file whose only block has fewer than 3
lines parses to zero valid entries, yet `srt_to_lrc` reports success with
an empty output — there is no empty-result check on the SRT→LRC side. -/
theorem zero_entries_cex :
    processBlock [strL "hi"] = none ∧ srt_to_lrc [[strL "hi"]] = (true, []) := by
  decide

/-- C5 as amended: in the LRC→SRT direction, zero valid entries makes the
file conversion fail (return `none`); in the SRT→LRC direction the
conversion succeeds unconditionally once the file is readable, even when
parsing yields zero valid entries. -/
theorem zero_entries_failure :
    (∀ lines, lrcEntries lines = [] → lrc_to_srt lines = none)
    ∧ ∀ blocks, (srt_to_lrc blocks).1 = true := by
  constructor
  · intro lines h
    simp [lrc_to_srt, h]
  · intro blocks
    rfl

/-- Witness for C5 (amended): an LRC file with no timestamped line fails. -/
theorem zero_entries_failure_witness :
    lrc_to_srt [strL "hello"] = none :=
  zero_entries_failure.1 [strL "hello"] (by decide)

/-- C8 counterexample: in the zero-argument form (`len(sys.argv) == 1`)
both scripts discard the batch result and `sys.exit(0)` — here a
directory walk in which the only file failed still exits 0. -/
theorem exit_code_cex :
    recursive_process_directory [false] = false
    ∧ mainExitCode 1 PathKind.dir [false] true = 0 := by
  decide

/-- C8 as amended: with one or two user arguments (`len(sys.argv)` 2 or
3) the exit code is 0 exactly when the invoked conversion succeeded — for
a directory, exactly when files were found and every file converted — and
an invalid path or wrong argument count exits 1; but the zero-argument
form always exits 0, whatever the per-file outcomes. -/
theorem exit_code_semantics :
    (∀ pk rs ok, mainExitCode 1 pk rs ok = 0)
    ∧ (∀ (n : Nat) rs ok, n = 2 ∨ n = 3 →
        (mainExitCode n PathKind.file rs ok = 0 ↔ ok = true)
        ∧ (mainExitCode n PathKind.dir rs ok = 0 ↔ recursive_process_directory rs = true)
        ∧ mainExitCode n PathKind.invalid rs ok = 1)
    ∧ (∀ n pk rs ok, ¬n = 1 → ¬(n = 2 ∨ n = 3) → mainExitCode n pk rs ok = 1)
    ∧ (∀ rs, rs ≠ [] → (recursive_process_directory rs = true ↔ ∀ b ∈ rs, b = true))
    ∧ recursive_process_directory [] = false := by
  refine ⟨?_, ?_, ?_, ?_, by decide⟩
  · intro pk rs ok
    simp [mainExitCode]
  · intro n rs ok hn
    rcases hn with rfl | rfl <;>
      exact ⟨by cases ok <;> simp [mainExitCode],
             by by_cases hr : recursive_process_directory rs = true <;> simp [mainExitCode, hr],
             by simp [mainExitCode]⟩
  · intro n pk rs ok h1 h2
    simp [mainExitCode, h1, h2]
  · intro rs hrs
    simp [recursive_process_directory, List.length_eq_zero, hrs, List.all_eq_true]

/-- Witness for C8 (amended): with one argument, an invalid path exits 1. -/
theorem exit_code_semantics_witness :
    mainExitCode 2 PathKind.invalid [] true = 1 :=
  (exit_code_semantics.2.1 2 [] true (Or.inl rfl)).2.2

/-- C9: evaluation at the failing input.  The script's stated purpose
(header comment: delete blank lines) and the claim say a pre-existing
blank line is absent from the resulting file; but blank-line skips do not
set `modified` (lrc_processor.py lines 156-157), so a file whose only
change would be blank-line removal is never rewritten and the blank line
survives.  The second conjunct shows the contrast: when a replacement
fires, the rewrite does happen. -/
theorem cleanup_blank_line_bug :
    process_lrc_file [[], strL "[00:01]hello"] = (false, [[], strL "[00:01]hello"])
    ∧ process_lrc_file [[], strL "[00:01]沙"] = (true, [strL "[00:01]砂"]) := by
  decide

theorem compactTail_true (a b c d : Char)
    (ha : a.isDigit = true) (hb : b.isDigit = true) (hc : c.isDigit = true)
    (hd : d.isDigit = true) :
    compactTail (':' :: a :: b :: '.' :: [c, d]) = true := by
  simp [compactTail, ha, hb, hc, hd]

theorem compactTail_spec (t : List Char) (h : compactTail t = true) :
    ∃ a b c d, t = ':' :: a :: b :: '.' :: [c, d] ∧ a.isDigit = true ∧ b.isDigit = true
      ∧ c.isDigit = true ∧ d.isDigit = true := by
  unfold compactTail at h
  split at h
  next sep1 a b sep2 c d rest =>
    simp only [Bool.and_eq_true, decide_eq_true_eq, List.isEmpty_iff] at h
    obtain ⟨⟨⟨⟨⟨⟨h1, ha⟩, hb⟩, h2⟩, hc⟩, hd⟩, hrest⟩ := h
    exact ⟨a, b, c, d, by rw [h1, h2, hrest], ha, hb, hc, hd⟩
  next => exact absurd h (by decide)

theorem grammar_of_parts (ds : List Char) (a b c d : Char)
    (hds : ∀ x ∈ ds, x.isDigit = true) (h1 : 1 ≤ ds.length) (h3 : ds.length ≤ 3)
    (ha : a.isDigit = true) (hb : b.isDigit = true) (hc : c.isDigit = true)
    (hd : d.isDigit = true) :
    isCompactGrammar (ds ++ ':' :: a :: b :: '.' :: [c, d]) = true := by
  have htail := compactTail_true a b c d ha hb hc hd
  match ds, h1, h3 with
  | [], h1, _ => exact absurd h1 (by decide)
  | [x], _, _ =>
    simp [isCompactGrammar, hds x (by simp), htail]
  | [x, y], _, _ =>
    simp [isCompactGrammar, isCompactGrammar2, hds x (by simp), hds y (by simp), htail]
  | [x, y, z], _, _ =>
    simp [isCompactGrammar, isCompactGrammar2, isCompactGrammar3,
      hds x (by simp), hds y (by simp), hds z (by simp), htail]
  | x :: y :: z :: w :: t, _, h3 => simp at h3

theorem isCompactGrammar_spec (p : List Char) (h : isCompactGrammar p = true) :
    ∃ ds a b c d, p = ds ++ ':' :: a :: b :: '.' :: [c, d]
      ∧ (∀ x ∈ ds, x.isDigit = true) ∧ 1 ≤ ds.length ∧ ds.length ≤ 3
      ∧ a.isDigit = true ∧ b.isDigit = true ∧ c.isDigit = true ∧ d.isDigit = true := by
  rcases p with _ | ⟨m1, t1⟩
  · exact absurd h (by decide)
  · simp only [isCompactGrammar, Bool.or_eq_true, Bool.and_eq_true] at h
    rcases h with ⟨hm1, ht⟩ | h
    · obtain ⟨a, b, c, d, rfl, ha, hb, hc, hd⟩ := compactTail_spec t1 ht
      refine ⟨[m1], a, b, c, d, by simp, ?_, by simp, by simp, ha, hb, hc, hd⟩
      intro x hx; simp at hx; rw [hx]; exact hm1
    · rcases t1 with _ | ⟨m2, t2⟩
      · simp [isCompactGrammar2] at h
      · simp only [isCompactGrammar2, Bool.or_eq_true, Bool.and_eq_true] at h
        rcases h with ⟨⟨hm1, hm2⟩, ht⟩ | h
        · obtain ⟨a, b, c, d, rfl, ha, hb, hc, hd⟩ := compactTail_spec t2 ht
          refine ⟨[m1, m2], a, b, c, d, by simp, ?_, by simp, by simp, ha, hb, hc, hd⟩
          intro x hx; simp at hx
          rcases hx with rfl | rfl
          · exact hm1
          · exact hm2
        · rcases t2 with _ | ⟨m3, t3⟩
          · simp [isCompactGrammar3] at h
          · simp only [isCompactGrammar3, Bool.and_eq_true] at h
            obtain ⟨⟨⟨hm1, hm2⟩, hm3⟩, ht⟩ := h
            obtain ⟨a, b, c, d, rfl, ha, hb, hc, hd⟩ := compactTail_spec t3 ht
            refine ⟨[m1, m2, m3], a, b, c, d, by simp, ?_, by simp, by simp,
              ha, hb, hc, hd⟩
            intro x hx; simp at hx
            rcases hx with rfl | rfl | rfl
            · exact hm1
            · exact hm2
            · exact hm3

theorem scanCompact_grammar_front (s : List Char) (t : CompactTime)
    (h : scanCompact s = some t) :
    ∃ r, s = t.chars ++ r ∧ isCompactGrammar t.chars = true := by
  have hds := takeDigits_digits s
  have hdec := takeDigits_decomp s
  unfold scanCompact scanCompactAux at h
  split at h
  next a b c d rest heq =>
    split at h
    next hcond =>
      obtain ⟨hlen1, hlen3, hda, hdb, hdc, hdd⟩ := hcond
      cases h
      refine ⟨rest, ?_, grammar_of_parts _ a b c d hds hlen1 hlen3 hda hdb hdc hdd⟩
      calc s = (takeDigits s).1 ++ (takeDigits s).2 := hdec.symm
        _ = (takeDigits s).1 ++ (':' :: a :: b :: '.' :: c :: d :: rest) := by rw [heq]
        _ = ((takeDigits s).1 ++ ':' :: a :: b :: '.' :: [c, d]) ++ rest := by simp
    next => exact absurd h (by simp)
  next => exact absurd h (by simp)

theorem scan_of_grammar (p r : List Char) (h : isCompactGrammar p = true) :
    (scanCompact (p ++ r)).isSome = true := by
  obtain ⟨ds, a, b, c, d, rfl, hds, h1, h3, ha, hb, hc, hd⟩ := isCompactGrammar_spec p h
  have htd : takeDigits (ds ++ ':' :: a :: b :: '.' :: c :: d :: r)
      = (ds, ':' :: a :: b :: '.' :: c :: d :: r) := by
    apply takeDigits_append _ _ hds
    intro x hx; simp at hx; rw [← hx]; decide
  rw [show (ds ++ ':' :: a :: b :: '.' :: [c, d]) ++ r
      = ds ++ ':' :: a :: b :: '.' :: c :: d :: r by simp]
  rw [scanCompact_via _ _ _ htd]
  simp [scanCompactAux, h1, h3, ha, hb, hc, hd]

theorem parseSrt_grammar_front (s : List Char) (v : Nat × Nat × Nat × List Char × List Char)
    (h : parseSrtTime s = some v) :
    ∃ p r, s = p ++ r ∧ isExpandedGrammar p = true := by
  unfold parseSrtTime at h
  split at h
  next h1 h2 m1 m2 s1 s2 sep d1 d2 d3 rest =>
    split at h
    next hcond =>
      simp only [Bool.and_eq_true] at hcond
      obtain ⟨⟨⟨⟨⟨⟨⟨⟨⟨hh1, hh2⟩, hm1⟩, hm2⟩, hs1⟩, hs2⟩, hsep⟩, hd1⟩, hd2⟩, hd3⟩ := hcond
      refine ⟨[h1, h2, ':', m1, m2, ':', s1, s2, sep, d1, d2, d3], rest, by simp, ?_⟩
      simp [isExpandedGrammar, hh1, hh2, hm1, hm2, hs1, hs2, hsep, hd1, hd2, hd3]
    next => exact absurd h (by simp)
  next => exact absurd h (by simp)

theorem isExpandedGrammar_spec (p : List Char) (h : isExpandedGrammar p = true) :
    ∃ h1 h2 m1 m2 s1 s2 sep d1 d2 d3,
      p = [h1, h2, ':', m1, m2, ':', s1, s2, sep, d1, d2, d3]
      ∧ (h1.isDigit && h2.isDigit && m1.isDigit && m2.isDigit && s1.isDigit && s2.isDigit
          && (sep = ',' || sep = '.') && d1.isDigit && d2.isDigit && d3.isDigit) = true := by
  unfold isExpandedGrammar at h
  split at h
  next h1 h2 c1 m1 m2 c2 s1 s2 sep d1 d2 d3 rest =>
    simp only [Bool.and_eq_true, decide_eq_true_eq, List.isEmpty_iff] at h
    obtain ⟨⟨⟨⟨⟨⟨⟨⟨⟨⟨⟨⟨hh1, hh2⟩, hc1⟩, hm1⟩, hm2⟩, hc2⟩, hs1⟩, hs2⟩, hsep⟩, hd1⟩, hd2⟩,
      hd3⟩, hrest⟩ := h
    refine ⟨h1, h2, m1, m2, s1, s2, sep, d1, d2, d3, by rw [hc1, hc2, hrest], ?_⟩
    simp [hh1, hh2, hm1, hm2, hs1, hs2, hsep, hd1, hd2, hd3]
  next => exact absurd h (by decide)

theorem parseSrt_of_grammar (p r : List Char) (h : isExpandedGrammar p = true) :
    (parseSrtTime (p ++ r)).isSome = true := by
  obtain ⟨h1, h2, m1, m2, s1, s2, sep, d1, d2, d3, rfl, hcond⟩ := isExpandedGrammar_spec p h
  simp only [List.cons_append, List.nil_append]
  simp [parseSrtTime, hcond]

/-- C7 counterexample: `re.match` anchors only at the start, so each
transcoder also accepts strings with trailing characters after a valid
time-code — inputs that do NOT match the expected grammar yet do not
raise, refuting the claimed "raises if and only if the input is not a
syntactically valid time-code". -/
theorem transcoder_prefix_cex :
    convert_lrc_time_to_srt (strL "00:00.00xyz") = some (strL "00:00:00,000")
    ∧ isCompactGrammar (strL "00:00.00xyz") = false
    ∧ convert_srt_time_to_lrc (strL "00:00:00,0199") = some (strL "00:00.01")
    ∧ isExpandedGrammar (strL "00:00:00,0199") = false := by
  decide

/-- C7 as amended: each transcoder succeeds exactly on the strings that
BEGIN with a time-code of its grammar (so in particular it succeeds on
every string fully matching the grammar, and raises on every string with
missing separators, non-numeric groups or too-few digits at the front),
but trailing characters after a grammatically valid prefix are accepted,
not rejected. -/
theorem transcoder_prefix_acceptance (s : List Char) :
    ((convert_lrc_time_to_srt s).isSome = true
      ↔ ∃ p r, s = p ++ r ∧ isCompactGrammar p = true)
    ∧ ((convert_srt_time_to_lrc s).isSome = true
      ↔ ∃ p r, s = p ++ r ∧ isExpandedGrammar p = true) := by
  constructor
  · constructor
    · intro h
      cases hsc : scanCompact s with
      | none => simp [convert_lrc_time_to_srt, hsc] at h
      | some t =>
        obtain ⟨r, hr, hg⟩ := scanCompact_grammar_front s t hsc
        exact ⟨t.chars, r, hr, hg⟩
    · rintro ⟨p, r, rfl, hg⟩
      have hs := scan_of_grammar p r hg
      cases hsc : scanCompact (p ++ r) with
      | none => rw [hsc] at hs; simp at hs
      | some t => simp [convert_lrc_time_to_srt, hsc]
  · constructor
    · intro h
      cases hsc : parseSrtTime s with
      | none => simp [convert_srt_time_to_lrc, hsc] at h
      | some v => exact parseSrt_grammar_front s v hsc
    · rintro ⟨p, r, rfl, hg⟩
      have hs := parseSrt_of_grammar p r hg
      cases hsc : parseSrtTime (p ++ r) with
      | none => rw [hsc] at hs; simp at hs
      | some v => simp [convert_srt_time_to_lrc, hsc]

/-- Witness for C7 (amended), applying the acceptance characterisation:
a valid compact time-code followed by trailing characters is accepted. -/
theorem transcoder_prefix_acceptance_witness :
    (convert_lrc_time_to_srt (strL "12:34.56tail")).isSome = true :=
  (transcoder_prefix_acceptance (strL "12:34.56tail")).1.mpr
    ⟨strL "12:34.56", strL "tail", by decide, by decide⟩

theorem pad2_dv2 (a b : Char) (ha : a.isDigit = true) (hb : b.isDigit = true) :
    pad 2 (dv2 a b) = [a, b] := by
  have hda := digitVal_lt_10 a ha
  have hdb := digitVal_lt_10 b hb
  rw [pad2_digits _ (dv2_lt_100 a b ha hb),
    show dv2 a b / 10 = digitVal a from by unfold dv2; omega,
    show dv2 a b % 10 = digitVal b from by unfold dv2; omega,
    digitChar_digitVal a ha, digitChar_digitVal b hb]

theorem pad2_digitsVal (mds : List Char) (hm : ∀ x ∈ mds, x.isDigit = true)
    (hshape : mds.length = 2 ∨ (mds.length = 3 ∧ mds.head? ≠ some '0')) :
    pad 2 (digitsVal mds) = mds := by
  rcases hshape with h2 | ⟨h3, hz⟩
  · match mds, h2 with
    | [x, y], _ =>
      have hval : digitsVal [x, y] = dv2 x y := by
        show (0 * 10 + digitVal x) * 10 + digitVal y = _
        unfold dv2
        ring
      rw [hval, pad2_dv2 x y (hm x (by simp)) (hm y (by simp))]
  · match mds, h3 with
    | [x, y, z], _ =>
      have hx := hm x (by simp)
      have hy := hm y (by simp)
      have hz' := hm z (by simp)
      have hdx := digitVal_lt_10 x hx
      have hdy := digitVal_lt_10 y hy
      have hdz := digitVal_lt_10 z hz'
      have hx0 : digitVal x ≠ 0 := by
        intro h0
        apply hz
        have hx' : x = digitChar 0 := by rw [← h0, digitChar_digitVal x hx]
        rw [hx']
        simp only [List.head?_cons]
        decide
      have hval : digitsVal [x, y, z]
          = 100 * digitVal x + 10 * digitVal y + digitVal z := by
        show ((0 * 10 + digitVal x) * 10 + digitVal y) * 10 + digitVal z = _
        ring
      rw [hval, pad2_eq_pad3 _ (by omega) (by omega), pad3_digits _ (by omega),
        show (100 * digitVal x + 10 * digitVal y + digitVal z) / 100 = digitVal x
          from by omega,
        show (100 * digitVal x + 10 * digitVal y + digitVal z) / 10 % 10 = digitVal y
          from by omega,
        show (100 * digitVal x + 10 * digitVal y + digitVal z) % 10 = digitVal z
          from by omega,
        digitChar_digitVal x hx, digitChar_digitVal y hy, digitChar_digitVal z hz']

/-- C6 counterexample: `"012:45.67"` has a minutes field of three digits
(so "at least two"), but the round trip renders the minutes value 12 back
with `%02d` and returns `"12:45.67"`, not the original string. -/
theorem compact_roundtrip_cex :
    (convert_lrc_time_to_srt (strL "012:45.67")).bind convert_srt_time_to_lrc
      = some (strL "12:45.67")
    ∧ strL "12:45.67" ≠ strL "012:45.67" := by
  decide

/-- C6 as amended: the compact→expanded→compact round trip returns the
original string exactly for every compact time-code whose minutes field
is two digits, or three digits not starting with `0` (i.e. the field
carries no zero-padding beyond width 2, which is what `%02d` can
reproduce); centisecond truncation is harmless because expansion
multiplies by exactly 10. -/
theorem compact_roundtrip (mds : List Char) (a b c d : Char)
    (hm : ∀ x ∈ mds, x.isDigit = true)
    (hshape : mds.length = 2 ∨ (mds.length = 3 ∧ mds.head? ≠ some '0'))
    (hd : (a.isDigit && b.isDigit && c.isDigit && d.isDigit) = true) :
    (convert_lrc_time_to_srt (mds ++ ':' :: a :: b :: '.' :: [c, d])).bind
        convert_srt_time_to_lrc
      = some (mds ++ ':' :: a :: b :: '.' :: [c, d]) := by
  simp only [Bool.and_eq_true] at hd
  obtain ⟨⟨⟨ha, hb⟩, hc⟩, hd'⟩ := hd
  have hlen1 : 1 ≤ mds.length := by rcases hshape with h | ⟨h, _⟩ <;> omega
  have hlen3 : mds.length ≤ 3 := by rcases hshape with h | ⟨h, _⟩ <;> omega
  have hn := digitsVal_lt_1000 mds hm hlen3
  have hse := dv2_lt_100 a b ha hb
  have hcs := dv2_lt_100 c d hc hd'
  have hda := digitVal_lt_10 a ha
  have hdb := digitVal_lt_10 b hb
  have hdc := digitVal_lt_10 c hc
  have hdd := digitVal_lt_10 d hd'
  rw [convert_lrc_eval mds a b c d hm hlen1 hlen3 ha hb hc hd', Option.some_bind,
    pad2_digits (digitsVal mds / 60) (by omega),
    pad2_digits (digitsVal mds % 60) (by omega),
    pad2_digits (dv2 a b) hse,
    pad3_digits (dv2 c d * 10) (by omega)]
  simp only [List.cons_append, List.nil_append]
  rw [convert_srt_eval _ _ _ _ _ _ _ _ _ ','
    (digitChar_isDigit _ (by omega)) (digitChar_isDigit _ (by omega))
    (digitChar_isDigit _ (by omega)) (digitChar_isDigit _ (by omega))
    (digitChar_isDigit _ (by omega)) (digitChar_isDigit _ (by omega))
    (digitChar_isDigit _ (by omega)) (digitChar_isDigit _ (by omega))
    (digitChar_isDigit _ (by omega)) (Or.inl rfl)]
  rw [show dv2 (digitChar (digitsVal mds / 60 / 10)) (digitChar (digitsVal mds / 60 % 10))
      = digitsVal mds / 60 from by
      unfold dv2
      rw [digitVal_digitChar _ (by omega), digitVal_digitChar _ (by omega)]
      omega,
    show dv2 (digitChar (digitsVal mds % 60 / 10)) (digitChar (digitsVal mds % 60 % 10))
      = digitsVal mds % 60 from by
      unfold dv2
      rw [digitVal_digitChar _ (by omega), digitVal_digitChar _ (by omega)]
      omega,
    show dv2 (digitChar (dv2 a b / 10)) (digitChar (dv2 a b % 10)) = dv2 a b from by
      unfold dv2
      rw [digitVal_digitChar _ (by omega), digitVal_digitChar _ (by omega)]
      omega,
    show digitsVal mds / 60 * 60 + digitsVal mds % 60 = digitsVal mds from by omega,
    show dv2 c d * 10 / 100 = digitVal c from by unfold dv2; omega,
    show dv2 c d * 10 / 10 % 10 = digitVal d from by unfold dv2; omega,
    digitChar_digitVal c hc, digitChar_digitVal d hd',
    pad2_digitsVal mds hm hshape, pad2_dv2 a b ha hb]
  simp

/-- Witness for C6 (amended) at the spec's example `"03:45.67"`. -/
theorem compact_roundtrip_witness :
    (convert_lrc_time_to_srt (strL "03:45.67")).bind convert_srt_time_to_lrc
      = some (strL "03:45.67") :=
  compact_roundtrip ['0', '3'] '4' '5' '6' '7' (by decide) (by decide) (by decide)

